import Mathlib

/-!
Verification of the bilibili live-stream URL resolver (`src/main.rs`).

The program is shallowly embedded: JSON values are an inductive type,
`serde_json` value operations (`Index`, `as_i64`, `as_array`, `to_string`)
are Lean functions, the stream flattening (`parse_stream`), the envelope
validation (`fetch_stream`, modulo the HTTP transport), the input
resolution of `main`, and the interactive prompt loops (`read_room_id`,
`read_quality`, `read_format`, over a finite list of stdin lines) are
Lean functions.  Machine integers are modelled as `Nat`/`Int` with
explicit range checks where the Rust code can overflow or panic;
fallible code (including `unwrap` panics) returns `Option`.

Modelling notes, matching the Rust source:
  * `u32ParseChars` models `str::parse::<u32>` (optional leading `+`,
    one or more ASCII digits, value below `2^32`).
  * `rustTrim` models `str::trim` (whitespace stripped from both ends);
    `Char.isWhitespace` stands in for the Unicode `White_Space` class,
    which agrees on all ASCII input.
  * `Char.isDigit` stands in for the regex class `\d`; they agree on
    ASCII input (a non-ASCII Unicode digit would make the Rust program
    panic inside `parse::<u32>` rather than re-prompt, an edge the
    theorems below avoid by restricting to ASCII where it matters).
  * JSON numbers are modelled as integers; the claims never exercise
    floating-point numbers.
  * `serde_json` objects are maps; the model uses association lists and
    first-match lookup, which agrees on duplicate-free objects.
-/

/-- JSON values, modelling `serde_json::Value` (numbers restricted to
integers, which is all the claims exercise). -/
inductive Json where
  | null : Json
  | bool (b : Bool) : Json
  | num (n : Int) : Json
  | str (s : String) : Json
  | arr (xs : List Json) : Json
  | obj (kvs : List (String × Json)) : Json

/-- Field access `value["key"]`, modelling `serde_json`'s `Index` impl:
a missing key or a non-object receiver yields `Null`. -/
def Json.idx (j : Json) (k : String) : Json :=
  match j with
  | .obj kvs =>
    match kvs.find? (fun kv => kv.1 = k) with
    | some kv => kv.2
    | none => Json.null
  | _ => Json.null

/-- Models `Value::as_i64`: `Some` exactly for integer numbers in the
`i64` range. -/
def Json.asI64 (j : Json) : Option Int :=
  match j with
  | .num n => if -(2 ^ 63) ≤ n ∧ n < 2 ^ 63 then some n else none
  | _ => none

/-- Models `Value::as_array`. -/
def Json.asArr (j : Json) : Option (List Json) :=
  match j with
  | .arr xs => some xs
  | _ => none

/-- JSON string-content escaping used by the serializer. -/
def Json.escape : List Char → List Char
  | [] => []
  | c :: rest =>
    (if c = '"' then ['\\', '"']
     else if c = '\\' then ['\\', '\\']
     else if c = '\n' then ['\\', 'n']
     else if c = '\r' then ['\\', 'r']
     else if c = '\t' then ['\\', 't']
     else [c]) ++ Json.escape rest

mutual

/-- Models `Value::to_string` (compact `serde_json` serialization).
String escaping covers the quote, backslash and the common control
characters; the claims only serialize plain strings. -/
def Json.toStr : Json → String
  | .null => "null"
  | .bool b => if b then "true" else "false"
  | .num n => toString n
  | .str s => "\"" ++ String.mk (Json.escape s.data) ++ "\""
  | .arr xs => "[" ++ Json.arrStr xs ++ "]"
  | .obj kvs => "\x7b" ++ Json.objStr kvs ++ "\x7d"

/-- Comma-separated serialization of an array body. -/
def Json.arrStr : List Json → String
  | [] => ""
  | [x] => Json.toStr x
  | x :: y :: rest => Json.toStr x ++ "," ++ Json.arrStr (y :: rest)

/-- Comma-separated serialization of an object body. -/
def Json.objStr : List (String × Json) → String
  | [] => ""
  | [kv] => "\"" ++ kv.1 ++ "\":" ++ Json.toStr kv.2
  | kv :: y :: rest => "\"" ++ kv.1 ++ "\":" ++ Json.toStr kv.2 ++ "," ++ Json.objStr (y :: rest)

end

/-- Numeric value of a list of ASCII digits (most significant first). -/
def digitsVal (l : List Char) : Nat :=
  l.foldl (fun a c => a * 10 + (c.toNat - '0'.toNat)) 0

/-- Digit-run part of `str::parse::<u32>`: one or more ASCII digits
whose value fits in 32 bits. -/
def u32ParseDigits (l2 : List Char) : Option Nat :=
  if l2 ≠ [] ∧ l2.all Char.isDigit ∧ digitsVal l2 < 2 ^ 32 then some (digitsVal l2) else none

/-- Models `str::parse::<u32>`: an optional leading `+`, then one or
more ASCII digits whose value fits in 32 bits. -/
def u32ParseChars (l : List Char) : Option Nat :=
  u32ParseDigits (if l.head? = some '+' then l.tail else l)

/-- Models `str::trim` on a character list. -/
def rustTrim (l : List Char) : List Char :=
  ((l.dropWhile Char.isWhitespace).reverse.dropWhile Char.isWhitespace).reverse

/-- Models `str::trim_matches('"')`: strips every leading and trailing
double-quote character. -/
def trimQuotes (l : List Char) : List Char :=
  ((l.dropWhile (fun c => c = '"')).reverse.dropWhile (fun c => c = '"')).reverse

/-- String version of `trimQuotes`, as applied by `main` when printing
and by `parse_stream` on each URL component. -/
def trimQuotesStr (s : String) : String :=
  String.mk (trimQuotes s.data)

/-- Models Rust `str::contains` (substring test). -/
def strContains (s pat : String) : Bool :=
  decide (pat.data <:+: s.data)

/-- The `Format` enum from the source. -/
inductive Format where
  | M3u8 : Format
  | Flv : Format
  deriving DecidableEq, Repr

/-- `Format::from_str`, accepting exactly the tokens `"m3u8"` and
`"flv"` (the `Err` case becomes `none`). -/
def Format.from_str (s : String) : Option Format :=
  if s = "m3u8" then some .M3u8
  else if s = "flv" then some .Flv
  else none

/-- `Format::value`, the wire token of a format. -/
def Format.value : Format → String
  | .M3u8 => "m3u8"
  | .Flv => "flv"

/-- The `Quality` enum from the source. -/
inductive Quality where
  | Low : Quality
  | High : Quality
  deriving DecidableEq, Repr

/-- `Quality::from_str`, accepting exactly the tokens `"low"` and
`"high"`. -/
def Quality.from_str (s : String) : Option Quality :=
  if s = "low" then some .Low
  else if s = "high" then some .High
  else none

/-- `Quality::value`, the numeric `qn` parameter of a quality tier. -/
def Quality.value : Quality → Nat
  | .Low => 0
  | .High => 10000

/-- Left-to-right traversal of a list by a fallible function, modelling a
Rust iterator pipeline in which any element may panic (`none`); the
first failure aborts the whole computation. -/
def optMap (g : α → Option β) : List α → Option (List β)
  | [] => some []
  | a :: l =>
    match g a with
    | none => none
    | some b =>
      match optMap g l with
      | none => none
      | some bs => some (b :: bs)

/-- One resolved URL from a codec node `c` and a url-info node `i`:
`host ++ base_url ++ extra`, each component serialized with
`Value::to_string` and stripped of surrounding quotes, exactly as in
`parse_stream`. -/
def urlOf (c i : Json) : String :=
  trimQuotesStr (Json.toStr (i.idx "host")) ++
    trimQuotesStr (Json.toStr (c.idx "base_url")) ++
    trimQuotesStr (Json.toStr (i.idx "extra"))

/-- The innermost closure of `parse_stream`: map a codec node's
`url_info` array (panic when it is not an array) to one URL per
entry. -/
def urlInfoPart (c : Json) : Option (List String) :=
  ((c.idx "url_info").asArr).map fun us => us.map (fun i => urlOf c i)

/-- The middle closure of `parse_stream`: flat-map a format node's
`codec` array (panic when it is not an array). -/
def codecPart (f : Json) : Option (List String) :=
  ((f.idx "codec").asArr).bind fun cs =>
    Option.map List.flatten (optMap urlInfoPart cs)

/-- The outer closure of `parse_stream`: flat-map a stream descriptor's
`format` array (panic when it is not an array). -/
def formatPart (s : Json) : Option (List String) :=
  ((s.idx "format").asArr).bind fun fs =>
    Option.map List.flatten (optMap codecPart fs)

/-- `parse_stream` from the source: the triply nested
`flat_map`/`as_array().unwrap()` walk over
`stream → format → codec → url_info`.  A missing or non-array field is
an `unwrap` panic, modelled as `none`. -/
def parse_stream (stream : List Json) : Option (List String) :=
  Option.map List.flatten (optMap formatPart stream)

/-- Written from the specification text (url_info level): one URL per
`url_info` entry of a codec. -/
def specUrls (c : Json) : List String :=
  (((c.idx "url_info").asArr).getD []).map fun i => urlOf c i

/-- Written from the specification text (codec level): the URLs of all
codecs of a format entry, in order. -/
def specCodecs (f : Json) : List String :=
  (((f.idx "codec").asArr).getD []).flatMap specUrls

/-- Written from the specification text (format level): the URLs of
all format entries of a stream descriptor, in order. -/
def specFormats (s : Json) : List String :=
  (((s.idx "format").asArr).getD []).flatMap specCodecs

/-- Written from the specification text, for comparison with
`parse_stream`: for each stream descriptor, for each entry of its
`format` array, for each entry of that entry's `codec` array, for each
entry of that codec's `url_info` array, emit `host ++ base_url ++ extra`
with surrounding quotes stripped from each component, depth-first and
left-to-right. -/
def flattenSpec (stream : List Json) : List String :=
  stream.flatMap specFormats

/-- Outcome of `fetch_stream` after the JSON body has been obtained:
a returned stream array, a returned `Err` message, or an `unwrap`
panic. -/
inductive FetchOutcome where
  | ok (stream : List Json) : FetchOutcome
  | err (msg : String) : FetchOutcome
  | panic : FetchOutcome

/-- Error message returned by `fetch_stream` when the body is not JSON. -/
def respFormatMsg : String := "接口返回格式错误"

/-- Error message returned by `fetch_stream` when the API `code` is
non-zero. -/
def apiErrMsg : String := "请求出错。"

/-- Error message returned by `fetch_stream` when `live_status` is 0. -/
def notLiveMsg : String := "未开播。"

/-- `fetch_stream` from the source, starting after the HTTP transport:
the input is the response body parsed as JSON (`none` when the body is
not valid JSON).  The `code` check runs first, then `live_status`, then
the extraction of `data.playurl_info.playurl.stream`; every
`unwrap` on a missing or mistyped field is a panic. -/
def fetch_stream (resp : Option Json) : FetchOutcome :=
  match resp with
  | none => .err respFormatMsg
  | some resp =>
    match (resp.idx "code").asI64 with
    | none => .panic
    | some code =>
      if code ≠ 0 then .err apiErrMsg
      else
        match ((resp.idx "data").idx "live_status").asI64 with
        | none => .panic
        | some liveStatus =>
          if liveStatus = 0 then .err notLiveMsg
          else
            match ((((resp.idx "data").idx "playurl_info").idx "playurl").idx "stream").asArr with
            | none => .panic
            | some stream => .ok stream

/-- One interactive prompt loop over a finite list of stdin lines.
Faithful to the source: the `String` buffer passed to `read_line` is
never cleared, so each iteration appends the next line (plus its
newline) to the accumulated buffer before re-validating.  `none` means
the loop is still rejecting when the given lines run out (the real
program would keep prompting forever). -/
def readLoop (step : String → Option α) : List String → String → Option α
  | [], _ => none
  | l :: rest, buf =>
    match step (buf ++ l ++ "\n") with
    | some v => some v
    | none => readLoop step rest (buf ++ l ++ "\n")

/-- The validation step of `read_quality`: trim the accumulated buffer,
parse it as `u32`, accept `1` as `Low` and `2` as `High`. -/
def qualityStep (buf : String) : Option Quality :=
  match u32ParseChars (rustTrim buf.data) with
  | some n => if n = 1 then some .Low else if n = 2 then some .High else none
  | none => none

/-- The validation step of `read_format`: trim the accumulated buffer,
parse it as `u32`, accept `1` as `M3u8` and `2` as `Flv`. -/
def formatStep (buf : String) : Option Format :=
  match u32ParseChars (rustTrim buf.data) with
  | some n => if n = 1 then some .M3u8 else if n = 2 then some .Flv else none
  | none => none

/-- `read_quality` from the source, over a finite list of stdin lines. -/
def read_quality (lines : List String) : Option Quality :=
  readLoop qualityStep lines ""

/-- `read_format` from the source, over a finite list of stdin lines. -/
def read_format (lines : List String) : Option Format :=
  readLoop formatStep lines ""

/-- Literal characters of `https://`, the greedy-preferred alternative
of the regex group `(http[s]?://)?`. -/
def httpsLit : List Char := ['h', 't', 't', 'p', 's', ':', '/', '/']

/-- Literal characters of `http://`. -/
def httpLit : List Char := ['h', 't', 't', 'p', ':', '/', '/']

/-- Characters of the host marker literal `live.bilibili.com/` as it
appears in the regex of `read_room_id`. -/
def markerChars : List Char :=
  ['l', 'i', 'v', 'e', '.', 'b', 'i', 'l', 'i', 'b', 'i', 'l', 'i', '.', 'c', 'o', 'm', '/']

/-- A matching template: `some c` is a literal character, `none` is the
regex `.` wildcard (any character except a newline). -/
def tmplAt : List (Option Char) → List Char → Option (List Char)
  | [], l => some l
  | _ :: _, [] => none
  | o :: tm, c :: l =>
    match o with
    | some c0 => if c = c0 then tmplAt tm l else none
    | none => if c = '\n' then none else tmplAt tm l

/-- Template of the regex group `(live.bilibili.com/)`: the two dots
are wildcards. -/
def markerTmpl : List (Option Char) :=
  [some 'l', some 'i', some 'v', some 'e', none, some 'b', some 'i', some 'l',
   some 'i', some 'b', some 'i', some 'l', some 'i', none, some 'c', some 'o',
   some 'm', some '/']

/-- Match of the optional group `(http[s]?://)` at the head of the
input, preferring the greedy `https://` alternative. -/
def httpAt (l : List Char) : Option (List Char) :=
  if httpsLit.isPrefixOf l then some (l.drop 8)
  else if httpLit.isPrefixOf l then some (l.drop 7)
  else none

/-- Match of the group `(live.bilibili.com/)` at the head of the
input. -/
def markerAt (l : List Char) : Option (List Char) :=
  tmplAt markerTmpl l

/-- Match of `\d+` at the head of the input: succeeds exactly when the
first character is a digit, returning the input itself (the greedy
digit run is taken by the caller). -/
def digAt (l : List Char) : Option (List Char) :=
  match l with
  | [] => none
  | c :: r => if c.isDigit then some (c :: r) else none

/-- Attempts `(live.bilibili.com/)?(\d+)` at the current position, with
the greedy preference for a present marker, backtracking to an absent
one. -/
def tailTry (l : List Char) : Option (List Char) :=
  match markerAt l with
  | some r2 =>
    match digAt r2 with
    | some d => some d
    | none => digAt l
  | none => digAt l

/-- Attempts the whole pattern
`(http[s]?://)?(live.bilibili.com/)?(\d+)` at the current position,
with greedy preference for present groups and full backtracking. -/
def matchAt (l : List Char) : Option (List Char) :=
  match httpAt l with
  | some r1 =>
    match tailTry r1 with
    | some d => some d
    | none => tailTry l
  | none => tailTry l

/-- Leftmost regex search: tries `matchAt` at each position from the
left and returns the greedy capture of group 3 (`\d+`) of the first
successful match, as `Regex::captures` does. -/
def reFind : List Char → Option (List Char)
  | [] => none
  | c :: rest =>
    match matchAt (c :: rest) with
    | some d => some (d.takeWhile Char.isDigit)
    | none => reFind rest

/-- One validation attempt of `read_room_id`: trim the line, search it
with the regex, parse the captured digit run as `u32`.  `none` covers
both a failed regex search (re-prompt) and a failed `u32` parse (a
panic on an oversized digit run). -/
def read_room_id_attempt (line : String) : Option Nat :=
  (reFind (rustTrim line.data)).bind u32ParseChars

/-- `read_room_id` from the source, over a finite list of stdin lines
(with the same never-cleared buffer as the other prompt loops). -/
def read_room_id (lines : List String) : Option Nat :=
  readLoop read_room_id_attempt lines ""

/-- The fixed API endpoint of `fetch_stream`. -/
def apiBase : String :=
  "https://api.live.bilibili.com/xlive/web-room/v2/index/getRoomPlayInfo"

/-- The request URL built by `fetch_stream` from the room id and the
quality. -/
def requestUrl (roomId : Nat) (qn : Quality) : String :=
  apiBase ++ "?qn=" ++ toString qn.value ++ "&protocol=0,1&format=0,1,2&codec=0,1&room_id=" ++
    toString roomId

/-- The `clap` argument layer rejecting the whole invocation: an
invalid value for the typed flag `--room-id <u32>` makes `Args::parse`
print a usage error and exit before `main`'s body runs. -/
inductive ClapExit where
  | exit : ClapExit
  deriving DecidableEq, Repr

/-- Observable result of one complete run of `main`'s body. -/
structure MainResult where
  /-- The request URL sent to the API. -/
  request : String
  /-- URL lines printed to stdout, in order. -/
  printed : List String
  /-- Whether the end-of-run `pause()` was reached. -/
  paused : Bool
  /-- `some msg` when `main` returned `Err(msg)` (non-zero exit). -/
  errMsg : Option String
  /-- Whether the run aborted in a panic (`unwrap` on `None`). -/
  panicked : Bool
  deriving DecidableEq, Repr

/-- The filter step of `main` (line 38-41 of the source): keep the URLs
containing the format token as a substring. -/
def filterUrls (urls : List String) (format : Format) : List String :=
  urls.filter (fun u => strContains u format.value)

/-- The print step of `main` (line 43-45): each kept URL on its own
line, quotes trimmed. -/
def printedUrls (urls : List String) (format : Format) : List String :=
  (filterUrls urls format).map trimQuotesStr

/-- Quality resolution in `main`: the flag string (absent becomes `""`)
through `Quality::from_str`, falling back to the interactive prompt
result. -/
def resolvedQuality (qualityFlag : Option String) (promptQ : Quality) : Quality :=
  (Quality.from_str (qualityFlag.getD "")).getD promptQ

/-- Whether `main` reaches the interactive quality prompt. -/
def qualityPrompted (qualityFlag : Option String) : Bool :=
  (Quality.from_str (qualityFlag.getD "")).isNone

/-- Format resolution in `main`, analogous to `resolvedQuality`. -/
def resolvedFormat (formatFlag : Option String) (promptF : Format) : Format :=
  (Format.from_str (formatFlag.getD "")).getD promptF

/-- Whether `main` reaches the interactive format prompt. -/
def formatPrompted (formatFlag : Option String) : Bool :=
  (Format.from_str (formatFlag.getD "")).isNone

/-- The body of `main` after argument parsing: `roomArg` is the already
`u32`-typed `--room-id` value, `promptRoom`, `promptQ`, `promptF` are
the values the interactive prompts would return, and `resp` is the
JSON-parsed response body.  Mirrors lines 14-50 of the source:
`is_cli` from flag presence, quality/format fallback, fetch, flatten,
filter by format token, print with quotes trimmed, pause only in the
fully interactive case. -/
def mainBody (roomArg : Option Nat) (qualityFlag formatFlag : Option String)
    (promptRoom : Nat) (promptQ : Quality) (promptF : Format) (resp : Option Json) : MainResult :=
  let isCli := roomArg.isSome || qualityFlag.isSome || formatFlag.isSome
  let roomId := roomArg.getD promptRoom
  let quality := resolvedQuality qualityFlag promptQ
  let format := resolvedFormat formatFlag promptF
  let request := requestUrl roomId quality
  match fetch_stream resp with
  | .err m => ⟨request, [], false, some m, false⟩
  | .panic => ⟨request, [], false, none, true⟩
  | .ok stream =>
    match parse_stream stream with
    | none => ⟨request, [], false, none, true⟩
    | some urls =>
      ⟨request, printedUrls urls format, !isCli, none, false⟩

/-- A full run: the `clap` layer first (the `--room-id` value must
parse as `u32`, otherwise the process exits with a usage error; the
`--quality` and `--format` flags are plain strings), then `mainBody`. -/
def mainRun (roomFlag qualityFlag formatFlag : Option String)
    (promptRoom : Nat) (promptQ : Quality) (promptF : Format) (resp : Option Json) :
    Except ClapExit MainResult :=
  match roomFlag with
  | none => .ok (mainBody none qualityFlag formatFlag promptRoom promptQ promptF resp)
  | some s =>
    match u32ParseChars s.data with
    | none => .error .exit
    | some n => .ok (mainBody (some n) qualityFlag formatFlag promptRoom promptQ promptF resp)

/-- A url_info fixture: the spec's end-to-end scenario 1. -/
def sampleUrlInfo : Json :=
  Json.obj [("host", Json.str "https://a.com"), ("extra", Json.str "?x=1")]

/-- A codec fixture holding `sampleUrlInfo`. -/
def sampleCodec : Json :=
  Json.obj [("base_url", Json.str "/live"), ("url_info", Json.arr [sampleUrlInfo])]

/-- A format fixture holding `sampleCodec`. -/
def sampleFmt : Json :=
  Json.obj [("codec", Json.arr [sampleCodec])]

/-- A stream-descriptor fixture holding `sampleFmt`. -/
def sampleDesc : Json :=
  Json.obj [("format", Json.arr [sampleFmt])]

/-- A well-formed successful API response holding `sampleDesc`. -/
def goodResp : Json :=
  Json.obj [("code", Json.num 0),
    ("data", Json.obj [("live_status", Json.num 1),
      ("playurl_info", Json.obj [("playurl", Json.obj [("stream", Json.arr [sampleDesc])])])])]

/-- C10: `Format` parse and serialize are inverses — `from_str` of a
format's wire token returns that format, the two tokens are distinct,
and `Format.value` is injective. -/
theorem c10_format_roundtrip :
    (∀ f : Format, Format.from_str f.value = some f)
    ∧ Format.value .M3u8 ≠ Format.value .Flv
    ∧ ∀ f g : Format, f.value = g.value → f = g := by
  refine ⟨?_, ?_, ?_⟩
  · intro f; cases f <;> decide
  · decide
  · intro f g h
    cases f <;> cases g <;> first | rfl | exact absurd h (by decide)

/-- C10 witness: the round trip and the injectivity instantiated at
concrete formats. -/
theorem c10_format_roundtrip_witness :
    Format.from_str "m3u8" = some Format.M3u8 ∧ Format.M3u8 = Format.M3u8 :=
  ⟨c10_format_roundtrip.1 Format.M3u8, c10_format_roundtrip.2.2 Format.M3u8 Format.M3u8 rfl⟩

/-- C2: the filter step keeps exactly the URLs containing the format
token as a substring (order-preserving, multiplicity-preserving), the
empty list filters to the empty list, and each surviving URL is
printed with its enclosing quotes stripped. -/
theorem c2_filter_step (urls : List String) (fmt : Format) :
    (filterUrls urls fmt).Sublist urls
    ∧ (∀ u, u ∈ filterUrls urls fmt ↔ u ∈ urls ∧ strContains u fmt.value = true)
    ∧ (∀ u, (filterUrls urls fmt).count u =
        if strContains u fmt.value then urls.count u else 0)
    ∧ filterUrls [] fmt = []
    ∧ printedUrls urls fmt = (filterUrls urls fmt).map trimQuotesStr := by
  refine ⟨List.filter_sublist urls, fun u => List.mem_filter, fun u => ?_, rfl, rfl⟩
  by_cases h : strContains u fmt.value = true
  · rw [if_pos h]
    exact List.count_filter h
  · rw [if_neg h, List.count_eq_zero]
    intro hmem
    exact h (List.mem_filter.mp hmem).2

/-- C5 counterexample: supplying `--room-id abc` does fail hard — the
typed `clap` flag `room_id: Option<u32>` rejects the non-numeric value
and the process exits with a usage error before any prompt can fire,
contradicting the claimed silent fallback. -/
theorem c5_room_flag_counterexample :
    mainRun (some "abc") none none 0 Quality.Low Format.M3u8 none =
      Except.error ClapExit.exit := by
  rfl

/-- C5 as amended: the silent invalid-flag fallback holds for
`--quality` and `--format` (an invalid value resolves to the prompt
result and the prompt fires; a valid value is used as-is and the
prompt does not fire); a valid `--room-id` is used as-is without
prompting, but an invalid `--room-id` terminates the process at
argument parsing. -/
theorem c5_flag_fallback :
    (∀ s p, Quality.from_str s = none →
      resolvedQuality (some s) p = p ∧ qualityPrompted (some s) = true)
    ∧ (∀ s q p, Quality.from_str s = some q →
      resolvedQuality (some s) p = q ∧ qualityPrompted (some s) = false)
    ∧ (∀ s p, Format.from_str s = none →
      resolvedFormat (some s) p = p ∧ formatPrompted (some s) = true)
    ∧ (∀ s f p, Format.from_str s = some f →
      resolvedFormat (some s) p = f ∧ formatPrompted (some s) = false)
    ∧ (∀ s n qf ff pr pq pf resp, u32ParseChars s.data = some n →
      mainRun (some s) qf ff pr pq pf resp = .ok (mainBody (some n) qf ff pr pq pf resp))
    ∧ (∀ s qf ff pr pq pf resp, u32ParseChars s.data = none →
      mainRun (some s) qf ff pr pq pf resp = .error .exit) := by
  refine ⟨?_, ?_, ?_, ?_, ?_, ?_⟩
  · intro s p h
    simp [resolvedQuality, qualityPrompted, h]
  · intro s q p h
    simp [resolvedQuality, qualityPrompted, h]
  · intro s p h
    simp [resolvedFormat, formatPrompted, h]
  · intro s f p h
    simp [resolvedFormat, formatPrompted, h]
  · intro s n qf ff pr pq pf resp h
    simp [mainRun, h]
  · intro s qf ff pr pq pf resp h
    simp [mainRun, h]

/-- C5 witness: the amended behaviour at concrete flag values — an
invalid `--quality bogus` falls back to the prompt value, a valid
`--quality low` is used as-is, and a valid `--room-id 123` runs the
body with room id 123. -/
theorem c5_flag_fallback_witness :
    (resolvedQuality (some "bogus") Quality.High = Quality.High
      ∧ qualityPrompted (some "bogus") = true)
    ∧ (resolvedQuality (some "low") Quality.High = Quality.Low
      ∧ qualityPrompted (some "low") = false)
    ∧ mainRun (some "123") none none 0 Quality.Low Format.M3u8 none =
        .ok (mainBody (some 123) none none 0 Quality.Low Format.M3u8 none) :=
  ⟨c5_flag_fallback.1 "bogus" Quality.High (by decide),
   c5_flag_fallback.2.1 "low" Quality.Low Quality.High (by decide),
   c5_flag_fallback.2.2.2.2.1 "123" 123 none none 0 Quality.Low Format.M3u8 none (by decide)⟩

/-- A failed element makes the whole left-to-right traversal fail. -/
theorem optMap_eq_none {g : α → Option β} {l : List α} {x : α}
    (hx : x ∈ l) (hg : g x = none) : optMap g l = none := by
  induction l with
  | nil => cases hx
  | cons a t ih =>
    rcases List.mem_cons.mp hx with h | h
    · subst h
      simp [optMap, hg]
    · unfold optMap
      cases hga : g a with
      | none => rfl
      | some b => rw [ih h]

/-- If every element succeeds, the traversal returns the pointwise
results. -/
theorem optMap_eq_some {g : α → Option β} {h : α → β} {l : List α}
    (hg : ∀ x ∈ l, g x = some (h x)) : optMap g l = some (l.map h) := by
  induction l with
  | nil => rfl
  | cons a t ih =>
    unfold optMap
    rw [hg a (List.mem_cons_self a t), ih (fun x hx => hg x (List.mem_cons_of_mem a hx))]
    rfl

/-- Inversion for a completed run: the result is the body outcome for
some already-parsed room argument. -/
theorem mainRun_ok_body {rf qf ff : Option String} {pr : Nat} {pq : Quality} {pf : Format}
    {resp : Option Json} {r : MainResult}
    (h : mainRun rf qf ff pr pq pf resp = .ok r) :
    (rf = none ∧ r = mainBody none qf ff pr pq pf resp)
    ∨ ∃ s n, rf = some s ∧ u32ParseChars s.data = some n
        ∧ r = mainBody (some n) qf ff pr pq pf resp := by
  cases rf with
  | none =>
    left
    refine ⟨rfl, ?_⟩
    simp only [mainRun] at h
    exact (Except.ok.inj h).symm
  | some s =>
    right
    cases hp : u32ParseChars s.data with
    | none =>
      simp only [mainRun, hp] at h
      exact Except.noConfusion h
    | some n =>
      simp only [mainRun, hp] at h
      exact ⟨s, n, rfl, hp, (Except.ok.inj h).symm⟩

/-- When the fetch returns an error, the body prints nothing, does not
pause, and carries the error message. -/
theorem mainBody_of_fetch_err {resp : Option Json} {m : String}
    (hf : fetch_stream resp = .err m) (ra : Option Nat) (qf ff : Option String)
    (pr : Nat) (pq : Quality) (pf : Format) :
    mainBody ra qf ff pr pq pf resp =
      ⟨requestUrl (ra.getD pr) (resolvedQuality qf pq), [], false, some m, false⟩ := by
  unfold mainBody
  rw [hf]

/-- C7: for a response body that parses as JSON with an integer
top-level `code`, a non-zero code fails with the ApiError message (and
the run prints no URLs) regardless of `live_status` — so the code
check runs first — and with code zero a `live_status` of 0 fails with
the NotLiveError message (again printing no URLs). -/
theorem c7_api_and_notlive (j : Json) (c : Int)
    (hc : (j.idx "code").asI64 = some c) :
    (c ≠ 0 → fetch_stream (some j) = .err apiErrMsg
      ∧ ∀ rf qf ff pr pq pf r, mainRun rf qf ff pr pq pf (some j) = .ok r →
          r.printed = [] ∧ r.errMsg = some apiErrMsg)
    ∧ (c = 0 → ((j.idx "data").idx "live_status").asI64 = some 0 →
        fetch_stream (some j) = .err notLiveMsg
        ∧ ∀ rf qf ff pr pq pf r, mainRun rf qf ff pr pq pf (some j) = .ok r →
            r.printed = [] ∧ r.errMsg = some notLiveMsg) := by
  constructor
  · intro hne
    have hf : fetch_stream (some j) = .err apiErrMsg := by
      simp only [fetch_stream, hc]
      rw [if_pos hne]
    refine ⟨hf, ?_⟩
    intro rf qf ff pr pq pf r hr
    rcases mainRun_ok_body hr with ⟨-, hb⟩ | ⟨s, n, -, -, hb⟩ <;>
      rw [hb, mainBody_of_fetch_err hf] <;> exact ⟨rfl, rfl⟩
  · intro h0 hls
    subst h0
    have hf : fetch_stream (some j) = .err notLiveMsg := by
      simp only [fetch_stream, hc, hls]
      rfl
    refine ⟨hf, ?_⟩
    intro rf qf ff pr pq pf r hr
    rcases mainRun_ok_body hr with ⟨-, hb⟩ | ⟨s, n, -, -, hb⟩ <;>
      rw [hb, mainBody_of_fetch_err hf] <;> exact ⟨rfl, rfl⟩

/-- A well-formed JSON response whose `data.playurl_info` branch is
missing: `code` is 0 and `live_status` is 1, but there is no stream
array. -/
def missingStreamResp : Json :=
  Json.obj [("code", Json.num 0), ("data", Json.obj [("live_status", Json.num 1)])]

/-- C6 counterexample: on a well-formed response with `code = 0`,
`live_status = 1` and no `data.playurl_info.playurl.stream` array, the
program does not fail with the ResponseFormatError message class — it
panics (an `unwrap` on `None`), a different failure mode. -/
theorem c6_missing_field_counterexample :
    fetch_stream (some missingStreamResp) = FetchOutcome.panic
    ∧ FetchOutcome.panic ≠ FetchOutcome.err respFormatMsg :=
  ⟨rfl, fun h => FetchOutcome.noConfusion h⟩

/-- C6 as amended: with `code = 0` and a non-zero integer
`live_status`, a missing or non-array `data.playurl_info.playurl.stream`
field makes `fetch_stream` panic (an `unwrap` crash, not the
ResponseFormatError message), and a missing or non-array `format`,
`codec` or `url_info` field anywhere during flattening makes
`parse_stream` panic as well. -/
theorem c6_missing_field_panics :
    (∀ (j : Json) (ls : Int), (j.idx "code").asI64 = some 0 →
      ((j.idx "data").idx "live_status").asI64 = some ls → ls ≠ 0 →
      ((((j.idx "data").idx "playurl_info").idx "playurl").idx "stream").asArr = none →
      fetch_stream (some j) = .panic)
    ∧ (∀ ds s, s ∈ ds → (s.idx "format").asArr = none → parse_stream ds = none)
    ∧ (∀ ds s fs f, s ∈ ds → (s.idx "format").asArr = some fs → f ∈ fs →
        (f.idx "codec").asArr = none → parse_stream ds = none)
    ∧ (∀ ds s fs f cs c, s ∈ ds → (s.idx "format").asArr = some fs → f ∈ fs →
        (f.idx "codec").asArr = some cs → c ∈ cs → (c.idx "url_info").asArr = none →
        parse_stream ds = none) := by
  refine ⟨?_, ?_, ?_, ?_⟩
  · intro j ls hc hls hlsne hstream
    simp only [fetch_stream, hc, hls, hstream]
    rw [if_neg (by simp), if_neg hlsne]
  · intro ds s hs hfmt
    have hg : formatPart s = none := by
      unfold formatPart
      rw [hfmt]
      rfl
    unfold parse_stream
    rw [optMap_eq_none hs hg]
    rfl
  · intro ds s fs f hs hfmt hf hcodec
    have hgc : codecPart f = none := by
      unfold codecPart
      rw [hcodec]
      rfl
    have hg : formatPart s = none := by
      unfold formatPart
      rw [hfmt, Option.some_bind, optMap_eq_none hf hgc]
      rfl
    unfold parse_stream
    rw [optMap_eq_none hs hg]
    rfl
  · intro ds s fs f cs c hs hfmt hf hcodec hc hurl
    have hgu : urlInfoPart c = none := by
      unfold urlInfoPart
      rw [hurl]
      rfl
    have hgc : codecPart f = none := by
      unfold codecPart
      rw [hcodec, Option.some_bind, optMap_eq_none hc hgu]
      rfl
    have hg : formatPart s = none := by
      unfold formatPart
      rw [hfmt, Option.some_bind, optMap_eq_none hf hgc]
      rfl
    unfold parse_stream
    rw [optMap_eq_none hs hg]
    rfl

/-- C6 witness: the amended panic behaviour applied at the concrete
missing-stream response and at a concrete descriptor whose `format`
field is absent. -/
theorem c6_missing_field_panics_witness :
    fetch_stream (some missingStreamResp) = FetchOutcome.panic
    ∧ parse_stream [Json.obj []] = none :=
  ⟨c6_missing_field_panics.1 missingStreamResp 1 (by decide) (by decide) (by decide) rfl,
   c6_missing_field_panics.2.1 [Json.obj []] (Json.obj [])
     (List.mem_singleton.mpr rfl) rfl⟩

/-- A response with a non-zero `code` and, simultaneously, a zero
`live_status` (so the outcome shows which check runs first). -/
def apiErrResp : Json :=
  Json.obj [("code", Json.num 5), ("data", Json.obj [("live_status", Json.num 0)])]

/-- A response with `code = 0` and `live_status = 0`. -/
def notLiveResp : Json :=
  Json.obj [("code", Json.num 0), ("data", Json.obj [("live_status", Json.num 0)])]

/-- C7 witness: a non-zero code yields the ApiError message even though
`live_status` is 0, and a zero code with `live_status = 0` yields the
NotLiveError message. -/
theorem c7_api_and_notlive_witness :
    fetch_stream (some apiErrResp) = FetchOutcome.err apiErrMsg
    ∧ fetch_stream (some notLiveResp) = FetchOutcome.err notLiveMsg :=
  ⟨((c7_api_and_notlive apiErrResp 5 (by decide)).1 (by decide)).1,
   ((c7_api_and_notlive notLiveResp 0 (by decide)).2 rfl (by decide)).1⟩

/-- When the fetch panics, the body records the panic. -/
theorem mainBody_of_fetch_panic {resp : Option Json}
    (hf : fetch_stream resp = .panic) (ra : Option Nat) (qf ff : Option String)
    (pr : Nat) (pq : Quality) (pf : Format) :
    mainBody ra qf ff pr pq pf resp =
      ⟨requestUrl (ra.getD pr) (resolvedQuality qf pq), [], false, none, true⟩ := by
  unfold mainBody
  rw [hf]

/-- When the fetch succeeds but the flattening panics, the body records
the panic. -/
theorem mainBody_of_parse_panic {resp : Option Json} {stream : List Json}
    (hf : fetch_stream resp = .ok stream) (hp : parse_stream stream = none)
    (ra : Option Nat) (qf ff : Option String) (pr : Nat) (pq : Quality) (pf : Format) :
    mainBody ra qf ff pr pq pf resp =
      ⟨requestUrl (ra.getD pr) (resolvedQuality qf pq), [], false, none, true⟩ := by
  unfold mainBody
  rw [hf]
  simp only [hp]

/-- A fully successful body: the kept URLs are printed and the pause
happens exactly in the no-flag case. -/
theorem mainBody_of_success {resp : Option Json} {stream : List Json} {urls : List String}
    (hf : fetch_stream resp = .ok stream) (hp : parse_stream stream = some urls)
    (ra : Option Nat) (qf ff : Option String) (pr : Nat) (pq : Quality) (pf : Format) :
    mainBody ra qf ff pr pq pf resp =
      ⟨requestUrl (ra.getD pr) (resolvedQuality qf pq),
        printedUrls urls (resolvedFormat ff pf),
        !(ra.isSome || qf.isSome || ff.isSome), none, false⟩ := by
  unfold mainBody
  rw [hf]
  simp only [hp]

/-- C9: on a run that completes normally (no error return, no panic),
the end-of-run pause happens exactly when none of the three CLI flags
was supplied — in particular it is skipped when a flag was supplied
with an invalid value, even though prompting still occurred. -/
theorem c9_pause_iff (rf qf ff : Option String) (pr : Nat) (pq : Quality) (pf : Format)
    (resp : Option Json) (r : MainResult)
    (hok : mainRun rf qf ff pr pq pf resp = .ok r)
    (herr : r.errMsg = none) (hpanic : r.panicked = false) :
    r.paused = true ↔ (rf = none ∧ qf = none ∧ ff = none) := by
  rcases mainRun_ok_body hok with ⟨hrf, hb⟩ | ⟨s, n, hrf, -, hb⟩ <;> subst hrf <;>
  cases hf : fetch_stream resp with
  | err m =>
    rw [hb, mainBody_of_fetch_err hf] at herr
    cases herr
  | panic =>
    rw [hb, mainBody_of_fetch_panic hf] at hpanic
    cases hpanic
  | ok stream =>
    cases hp : parse_stream stream with
    | none =>
      rw [hb, mainBody_of_parse_panic hf hp] at hpanic
      cases hpanic
    | some urls =>
      rw [hb, mainBody_of_success hf hp]
      cases qf <;> cases ff <;> simp

/-- C9 witness: a fully interactive successful run (no flags, valid
response) does pause at the end. -/
theorem c9_pause_iff_witness :
    (mainBody none none none 1 Quality.High Format.M3u8 (some goodResp)).paused = true :=
  (c9_pause_iff none none none 1 Quality.High Format.M3u8 (some goodResp)
    (mainBody none none none 1 Quality.High Format.M3u8 (some goodResp))
    rfl rfl rfl).mpr ⟨rfl, rfl, rfl⟩

/-- A flat-map whose pieces all have length `k` has length `n * k`. -/
theorem flatMap_length_const {g : α → List β} {l : List α} {k : Nat}
    (h : ∀ x ∈ l, (g x).length = k) : (l.flatMap g).length = l.length * k := by
  induction l with
  | nil => simp
  | cons a t ih =>
    rw [List.flatMap_cons, List.length_append, h a (List.mem_cons_self a t),
      ih (fun x hx => h x (List.mem_cons_of_mem a hx)), List.length_cons,
      Nat.succ_mul, Nat.add_comm]

/-- With an actual `url_info` array present, the source's inner closure
computes the specification's url_info-level list. -/
theorem urlInfoPart_eq {c : Json} {us : List Json}
    (h : (c.idx "url_info").asArr = some us) : urlInfoPart c = some (specUrls c) := by
  unfold urlInfoPart specUrls
  rw [h]
  rfl

/-- With an actual `codec` array whose codecs all have `url_info`
arrays, the source's middle closure computes the specification's
codec-level list. -/
theorem codecPart_eq {f : Json} {cs : List Json}
    (h : (f.idx "codec").asArr = some cs)
    (hin : ∀ c ∈ cs, ∃ us, (c.idx "url_info").asArr = some us) :
    codecPart f = some (specCodecs f) := by
  unfold codecPart specCodecs
  rw [h, Option.some_bind]
  have hall : ∀ c ∈ cs, urlInfoPart c = some (specUrls c) := by
    intro c hc
    obtain ⟨us, hus⟩ := hin c hc
    exact urlInfoPart_eq hus
  rw [optMap_eq_some hall]
  rfl

/-- With an actual `format` array whose members are all well-formed,
the source's outer closure computes the specification's format-level
list. -/
theorem formatPart_eq {s : Json} {fs : List Json}
    (h : (s.idx "format").asArr = some fs)
    (hin : ∀ f ∈ fs, ∃ cs, (f.idx "codec").asArr = some cs ∧
      ∀ c ∈ cs, ∃ us, (c.idx "url_info").asArr = some us) :
    formatPart s = some (specFormats s) := by
  unfold formatPart specFormats
  rw [h, Option.some_bind]
  have hall : ∀ f ∈ fs, codecPart f = some (specCodecs f) := by
    intro f hf
    obtain ⟨cs, hcs, hrest⟩ := hin f hf
    exact codecPart_eq hcs hrest
  rw [optMap_eq_some hall]
  rfl

/-- C1: when every `format`, `codec` and `url_info` field in the
descriptor list is an array, `parse_stream` succeeds and emits exactly
the specification's depth-first left-to-right flattening — one
`host ++ base_url ++ extra` URL (quotes stripped per component) per
(descriptor, format, codec, url_info) combination, nothing dropped or
deduplicated — and a descriptor with `nf` formats, `nc` codecs each
and `ni` url_infos each contributes exactly `nf * nc * ni` entries. -/
theorem c1_parse_stream_flattening (ds : List Json)
    (h : ∀ s ∈ ds, ∃ fs, (s.idx "format").asArr = some fs ∧
      ∀ f ∈ fs, ∃ cs, (f.idx "codec").asArr = some cs ∧
        ∀ c ∈ cs, ∃ us, (c.idx "url_info").asArr = some us) :
    parse_stream ds = some (flattenSpec ds)
    ∧ ∀ (s : Json) (fs : List Json) (nf nc ni : Nat),
        (s.idx "format").asArr = some fs → fs.length = nf →
        (∀ f ∈ fs, ∃ cs, (f.idx "codec").asArr = some cs ∧ cs.length = nc ∧
          ∀ c ∈ cs, ∃ us, (c.idx "url_info").asArr = some us ∧ us.length = ni) →
        (flattenSpec [s]).length = nf * nc * ni := by
  constructor
  · have hall : ∀ s ∈ ds, formatPart s = some (specFormats s) := by
      intro s hs
      obtain ⟨fs, hfs, hrest⟩ := h s hs
      exact formatPart_eq hfs hrest
    unfold parse_stream flattenSpec
    rw [optMap_eq_some hall]
    rfl
  · intro s fs nf nc ni hfs hnf hin
    have hone : flattenSpec [s] = specFormats s := by
      unfold flattenSpec
      rw [List.flatMap_cons, List.flatMap_nil, List.append_nil]
    rw [hone]
    unfold specFormats
    rw [hfs]
    have hlen : ∀ f ∈ fs, (specCodecs f).length = nc * ni := by
      intro f hf
      obtain ⟨cs, hcs, hnc, hincs⟩ := hin f hf
      unfold specCodecs
      rw [hcs]
      have husl : ∀ c ∈ cs, (specUrls c).length = ni := by
        intro c hc
        obtain ⟨us, hus, hni⟩ := hincs c hc
        unfold specUrls
        rw [hus]
        simp [hni]
      rw [show ((some cs).getD [] : List Json) = cs from rfl, flatMap_length_const husl, hnc]
    rw [show ((some fs).getD [] : List Json) = fs from rfl, flatMap_length_const hlen, hnf,
      Nat.mul_assoc]

/-- C1 witness: the flattening equivalence applied to the concrete
one-descriptor fixture (the spec's scenario 1 tree). -/
theorem c1_parse_stream_flattening_witness :
    parse_stream [sampleDesc] = some (flattenSpec [sampleDesc]) :=
  (c1_parse_stream_flattening [sampleDesc] (by
    intro s hs
    rw [List.mem_singleton] at hs
    subst hs
    refine ⟨[sampleFmt], rfl, ?_⟩
    intro f hf
    rw [List.mem_singleton] at hf
    subst hf
    refine ⟨[sampleCodec], rfl, ?_⟩
    intro c hc
    rw [List.mem_singleton] at hc
    subst hc
    exact ⟨[sampleUrlInfo], rfl⟩)).1

/-- A single-line prompt interaction is one validation step on that
line plus its newline. -/
theorem readLoop_single (step : String → Option α) (s : String) :
    readLoop step [s] "" = step ("" ++ s ++ "\n") := by
  unfold readLoop
  cases h : step ("" ++ s ++ "\n") with
  | some v => rfl
  | none => rfl

/-- Character content of the one-line buffer. -/
theorem buf_single_data (s : String) : ("" ++ s ++ "\n").data = s.data ++ ['\n'] := by
  rw [String.data_append, String.data_append]
  rfl

/-- The quality step as a function of the trimmed, parsed buffer
characters. -/
theorem qualityStep_single (s : String) :
    qualityStep ("" ++ s ++ "\n") =
      match u32ParseChars (rustTrim (s.data ++ ['\n'])) with
      | some n => if n = 1 then some Quality.Low else if n = 2 then some Quality.High else none
      | none => none := by
  unfold qualityStep
  rw [buf_single_data]

/-- C8 counterexample: the interactive selection `"01"` — a value
other than `"1"` and `"2"` — does not fail: it is accepted and mapped
to `Low`, because the code parses the trimmed line as `u32` and
compares the number. -/
theorem c8_quality_counterexample :
    read_quality ["01"] = some Quality.Low ∧ "01" ≠ "1" ∧ "01" ≠ "2" :=
  ⟨by decide, by decide, by decide⟩

/-- C8 as amended: the interactive quality selection parses the
trimmed line as `u32` and accepts exactly the values 1 (`Low`) and 2
(`High`) — so `"1"` maps to `Low`, `"2"` to `High`, any line whose
number is neither 1 nor 2 and any unparseable line is rejected; the
flag form accepts exactly the tokens `"low"` and `"high"`; and the
numeric API values are `Low = 0`, `High = 10000`. -/
theorem c8_quality_parsing :
    read_quality ["1"] = some Quality.Low
    ∧ read_quality ["2"] = some Quality.High
    ∧ (∀ s : String, u32ParseChars (rustTrim (s.data ++ ['\n'])) = none →
        read_quality [s] = none)
    ∧ (∀ (s : String) (n : Nat), u32ParseChars (rustTrim (s.data ++ ['\n'])) = some n →
        n ≠ 1 → n ≠ 2 → read_quality [s] = none)
    ∧ (∀ s : String, u32ParseChars (rustTrim (s.data ++ ['\n'])) = some 1 →
        read_quality [s] = some Quality.Low)
    ∧ (∀ s : String, u32ParseChars (rustTrim (s.data ++ ['\n'])) = some 2 →
        read_quality [s] = some Quality.High)
    ∧ (∀ s, Quality.from_str s = some Quality.Low ↔ s = "low")
    ∧ (∀ s, Quality.from_str s = some Quality.High ↔ s = "high")
    ∧ Quality.value Quality.Low = 0 ∧ Quality.value Quality.High = 10000 := by
  have hsingle : ∀ s : String, read_quality [s] =
      match u32ParseChars (rustTrim (s.data ++ ['\n'])) with
      | some n => if n = 1 then some Quality.Low else if n = 2 then some Quality.High else none
      | none => none := by
    intro s
    rw [show read_quality [s] = readLoop qualityStep [s] "" from rfl, readLoop_single,
      qualityStep_single]
  refine ⟨by decide, by decide, ?_, ?_, ?_, ?_, ?_, ?_, rfl, rfl⟩
  · intro s hp
    rw [hsingle s, hp]
  · intro s n hp h1 h2
    rw [hsingle s, hp]
    simp [h1, h2]
  · intro s hp
    rw [hsingle s, hp]
    rfl
  · intro s hp
    rw [hsingle s, hp]
    rfl
  · intro s
    unfold Quality.from_str
    split_ifs with h1 h2
    · simp [h1]
    · simp [h2]
    · simp [h1]
  · intro s
    unfold Quality.from_str
    split_ifs with h1 h2
    · simp [h1]
    · simp [h2]
    · simp [h2]

/-- C8 witness: the amended mapping at concrete rejected inputs — the
number 3 is rejected, and an unparseable line is rejected. -/
theorem c8_quality_parsing_witness :
    read_quality ["3"] = none ∧ read_quality ["abc"] = none :=
  ⟨c8_quality_parsing.2.2.2.1 "3" 3 (by decide) (by decide) (by decide),
   c8_quality_parsing.2.2.1 "abc" (by decide)⟩

/-- Right-trim helper: drop matching characters from the end of a
list. -/
def trimEnd (p : Char → Bool) (l : List Char) : List Char :=
  (l.reverse.dropWhile p).reverse

/-- `rustTrim` is a left `dropWhile` followed by a right trim. -/
theorem rustTrim_eq (l : List Char) :
    rustTrim l = trimEnd Char.isWhitespace (l.dropWhile Char.isWhitespace) := rfl

/-- Unfolding of the right trim over a cons cell. -/
theorem trimEnd_cons (p : Char → Bool) (a : Char) (r : List Char) :
    trimEnd p (a :: r) =
      if trimEnd p r = [] then (if p a then [] else [a]) else a :: trimEnd p r := by
  unfold trimEnd
  rw [List.reverse_cons, List.dropWhile_append]
  by_cases h : r.reverse.dropWhile p = []
  · rw [h]
    by_cases hp : p a
    · simp [List.dropWhile_cons, hp]
    · simp [List.dropWhile_cons, hp]
  · rw [if_neg (by simp [List.isEmpty_iff, h])]
    rw [if_neg (by simp [h])]
    rw [List.reverse_append]
    rfl

/-- Once the buffer of `read_quality` starts with a rejected `3` line,
every later validation attempt fails: the trimmed buffer is either the
bare `3` (parsed, but neither 1 nor 2) or contains the embedded
newline (unparseable). -/
theorem qualityStep_poisoned (buf : String) (ext : List Char)
    (h : buf.data = '3' :: '\n' :: ext) : qualityStep buf = none := by
  unfold qualityStep
  rw [h, rustTrim_eq]
  rw [List.dropWhile_cons, if_neg (by decide)]
  rw [trimEnd_cons]
  by_cases h2 : trimEnd Char.isWhitespace ('\n' :: ext) = []
  · rw [if_pos h2, if_neg (by decide)]
    rfl
  · rw [if_neg h2]
    rw [trimEnd_cons] at h2 ⊢
    by_cases h3 : trimEnd Char.isWhitespace ext = []
    · rw [if_pos h3, if_pos (by decide)] at h2
      exact absurd rfl h2
    · rw [if_neg h3]
      have hu : u32ParseChars ('3' :: '\n' :: trimEnd Char.isWhitespace ext) = none := by
        unfold u32ParseChars
        rw [if_neg (by simp)]
        unfold u32ParseDigits
        rw [if_neg (fun hc => absurd
          (List.all_eq_true.mp hc.2.1 '\n' (List.mem_cons_of_mem _ (List.mem_cons_self _ _)))
          (by decide))]
      rw [hu]

/-- Once the buffer of `read_format` starts with a rejected `x` line,
every later validation attempt fails. -/
theorem formatStep_poisoned (buf : String) (ext : List Char)
    (h : buf.data = 'x' :: '\n' :: ext) : formatStep buf = none := by
  unfold formatStep
  rw [h, rustTrim_eq]
  rw [List.dropWhile_cons, if_neg (by decide)]
  rw [trimEnd_cons]
  have hnone : ∀ t : List Char, u32ParseChars ('x' :: t) = none := by
    intro t
    unfold u32ParseChars
    rw [if_neg (by simp)]
    unfold u32ParseDigits
    rw [if_neg (fun hc => absurd
      (List.all_eq_true.mp hc.2.1 'x' (List.mem_cons_self _ _)) (by decide))]
  by_cases h2 : trimEnd Char.isWhitespace ('\n' :: ext) = []
  · rw [if_pos h2, if_neg (by decide), hnone]
  · rw [if_neg h2, hnone]

/-- A poisoned buffer stays poisoned: appending further input lines
never makes the validation step succeed, so the loop never returns. -/
theorem readLoop_poisoned {α : Type} (step : String → Option α) (c0 : Char)
    (hstep : ∀ (buf : String) (ext : List Char), buf.data = c0 :: '\n' :: ext →
      step buf = none) :
    ∀ (inputs : List String) (buf : String) (ext : List Char),
      buf.data = c0 :: '\n' :: ext → readLoop step inputs buf = none := by
  intro inputs
  induction inputs with
  | nil =>
    intro buf ext h
    rfl
  | cons l rest ih =>
    intro buf ext h
    have hdata : (buf ++ l ++ "\n").data = c0 :: '\n' :: (ext ++ l.data ++ ['\n']) := by
      rw [String.data_append, String.data_append, h]
      simp
    unfold readLoop
    rw [hstep (buf ++ l ++ "\n") (ext ++ l.data ++ ['\n']) hdata]
    exact ih (buf ++ l ++ "\n") (ext ++ l.data ++ ['\n']) hdata

/-- C4: the interactive quality and format loops do NOT recover after a
rejected non-whitespace line — `read_line` appends to a never-cleared
buffer, so after a rejected `3` (quality) or `x` (format) no sequence
of later lines (valid `1`/`2` included) is ever accepted; the loop
re-prompts forever.  The claim's expected behaviour fails on the
concrete stdin sequences `["3", "1"]` and `["x", "2"]`. -/
theorem c4_prompt_loops_never_recover :
    (∀ future : List String, read_quality ("3" :: future) = none)
    ∧ (∀ future : List String, read_format ("x" :: future) = none)
    ∧ read_quality ["3", "1"] = none
    ∧ read_format ["x", "2"] = none := by
  have hq : ∀ future : List String, read_quality ("3" :: future) = none := by
    intro future
    show readLoop qualityStep ("3" :: future) "" = none
    have hdata : ("" ++ "3" ++ "\n").data = '3' :: '\n' :: [] := by decide
    unfold readLoop
    rw [qualityStep_poisoned ("" ++ "3" ++ "\n") [] hdata]
    exact readLoop_poisoned qualityStep '3' qualityStep_poisoned future _ [] hdata
  have hf : ∀ future : List String, read_format ("x" :: future) = none := by
    intro future
    show readLoop formatStep ("x" :: future) "" = none
    have hdata : ("" ++ "x" ++ "\n").data = 'x' :: '\n' :: [] := by decide
    unfold readLoop
    rw [formatStep_poisoned ("" ++ "x" ++ "\n") [] hdata]
    exact readLoop_poisoned formatStep 'x' formatStep_poisoned future _ [] hdata
  exact ⟨hq, hf, hq ["1"], hf ["2"]⟩

/-- An ASCII digit is not whitespace. -/
theorem digit_not_ws {c : Char} (h : c.isDigit = true) : c.isWhitespace = false := by
  rcases Bool.eq_false_or_eq_true c.isWhitespace with hw | hw
  · exfalso
    simp only [Char.isWhitespace, Bool.or_eq_true, decide_eq_true_eq] at hw
    rcases hw with ((h1 | h1) | h1) | h1 <;> subst h1 <;> exact absurd h (by decide)
  · exact hw

/-- Splitting a list at its first digit is unique: two decompositions
into a digit-free prefix and a digit-headed suffix coincide. -/
theorem split_at_first_digit : ∀ (X Y u v : List Char), X ++ u = Y ++ v →
    (∀ c ∈ X, c.isDigit = false) → (∀ c ∈ Y, c.isDigit = false) →
    (∃ c r, u = c :: r ∧ c.isDigit = true) → (∃ c r, v = c :: r ∧ c.isDigit = true) →
    X = Y ∧ u = v := by
  intro X
  induction X with
  | nil =>
    intro Y u v h hX hY hu hv
    cases Y with
    | nil => exact ⟨rfl, h⟩
    | cons b Y2 =>
      obtain ⟨c, r, hcr, hc⟩ := hu
      rw [List.nil_append, hcr, List.cons_append] at h
      have hb := hY b (List.mem_cons_self _ _)
      rw [← (List.cons.inj h).1] at hb
      rw [hc] at hb
      cases hb
  | cons a X2 ih =>
    intro Y u v h hX hY hu hv
    cases Y with
    | nil =>
      obtain ⟨c, r, hcr, hc⟩ := hv
      rw [List.nil_append, hcr, List.cons_append] at h
      have ha := hX a (List.mem_cons_self _ _)
      rw [(List.cons.inj h).1] at ha
      rw [hc] at ha
      cases ha
    | cons b Y2 =>
      rw [List.cons_append, List.cons_append] at h
      obtain ⟨h1, h2⟩ := List.cons.inj h
      obtain ⟨hXY, huv⟩ := ih Y2 u v h2
        (fun c hc => hX c (List.mem_cons_of_mem _ hc))
        (fun c hc => hY c (List.mem_cons_of_mem _ hc)) hu hv
      exact ⟨by rw [h1, hXY], huv⟩

/-- A successful template match consumes exactly the template's length
from the front of the input. -/
theorem tmplAt_structure : ∀ (tm : List (Option Char)) (l r : List Char),
    tmplAt tm l = some r → ∃ w, l = w ++ r ∧ w.length = tm.length := by
  intro tm
  induction tm with
  | nil =>
    intro l r h
    obtain rfl : l = r := Option.some.inj h
    exact ⟨[], rfl, rfl⟩
  | cons o tm2 ih =>
    intro l r h
    cases l with
    | nil => cases h
    | cons c l2 =>
      cases o with
      | some c0 =>
        have h2 : (if c = c0 then tmplAt tm2 l2 else none) = some r := h
        by_cases hc : c = c0
        · rw [if_pos hc] at h2
          obtain ⟨w, hw, hlen⟩ := ih l2 r h2
          exact ⟨c :: w, by rw [List.cons_append, ← hw], by simp [hlen]⟩
        · rw [if_neg hc] at h2
          cases h2
      | none =>
        have h2 : (if c = '\n' then none else tmplAt tm2 l2) = some r := h
        by_cases hc : c = '\n'
        · rw [if_pos hc] at h2
          cases h2
        · rw [if_neg hc] at h2
          obtain ⟨w, hw, hlen⟩ := ih l2 r h2
          exact ⟨c :: w, by rw [List.cons_append, ← hw], by simp [hlen]⟩

/-- A successful match of the optional `http[s]?://` group consumed one
of its two literal spellings. -/
theorem httpAt_structure {l r : List Char} (h : httpAt l = some r) :
    l = httpsLit ++ r ∨ l = httpLit ++ r := by
  unfold httpAt at h
  by_cases h8 : httpsLit.isPrefixOf l = true
  · rw [if_pos h8] at h
    left
    obtain ⟨t, ht⟩ := List.isPrefixOf_iff_prefix.mp h8
    obtain rfl : l.drop 8 = r := Option.some.inj h
    rw [← ht, show (8 : Nat) = httpsLit.length from rfl, List.drop_left]
  · rw [if_neg h8] at h
    by_cases h7 : httpLit.isPrefixOf l = true
    · rw [if_pos h7] at h
      right
      obtain ⟨t, ht⟩ := List.isPrefixOf_iff_prefix.mp h7
      obtain rfl : l.drop 7 = r := Option.some.inj h
      rw [← ht, show (7 : Nat) = httpLit.length from rfl, List.drop_left]
    · rw [if_neg h7] at h
      cases h

/-- A successful `\d+` head match returns the input itself, whose head
is a digit. -/
theorem digAt_structure {l d : List Char} (h : digAt l = some d) :
    d = l ∧ ∃ c r, l = c :: r ∧ c.isDigit = true := by
  cases l with
  | nil => cases h
  | cons c r =>
    have h2 : (if c.isDigit = true then some (c :: r) else none) = some d := h
    by_cases hc : c.isDigit = true
    · rw [if_pos hc] at h2
      exact ⟨(Option.some.inj h2).symm, c, r, rfl, hc⟩
    · rw [if_neg hc] at h2
      cases h2

/-- Whatever `tailTry` returns is a digit-headed suffix of its input. -/
theorem tailTry_structure {l d : List Char} (h : tailTry l = some d) :
    (∃ c r, d = c :: r ∧ c.isDigit = true) ∧ ∃ w, l = w ++ d := by
  unfold tailTry at h
  cases hm : markerAt l with
  | some r2 =>
    rw [hm] at h
    have h2 : (match digAt r2 with | some d0 => some d0 | none => digAt l) = some d := h
    cases hd : digAt r2 with
    | some d2 =>
      rw [hd] at h2
      obtain rfl : d2 = d := Option.some.inj h2
      obtain ⟨rfl, hc⟩ := digAt_structure hd
      obtain ⟨w, hw, -⟩ := tmplAt_structure markerTmpl l d2 hm
      exact ⟨hc, w, hw⟩
    | none =>
      rw [hd] at h2
      obtain ⟨rfl, hc⟩ := digAt_structure h2
      exact ⟨hc, [], rfl⟩
  | none =>
    rw [hm] at h
    obtain ⟨rfl, hc⟩ := digAt_structure h
    exact ⟨hc, [], rfl⟩

/-- Whatever `matchAt` returns is a digit-headed suffix of its input. -/
theorem matchAt_structure {l d : List Char} (h : matchAt l = some d) :
    (∃ c r, d = c :: r ∧ c.isDigit = true) ∧ ∃ w, l = w ++ d := by
  unfold matchAt at h
  cases hh : httpAt l with
  | none =>
    rw [hh] at h
    exact tailTry_structure h
  | some r1 =>
    rw [hh] at h
    have h2 : (match tailTry r1 with | some d0 => some d0 | none => tailTry l) = some d := h
    cases ht : tailTry r1 with
    | some d2 =>
      rw [ht] at h2
      obtain rfl : d2 = d := Option.some.inj h2
      obtain ⟨hc, w2, hw2⟩ := tailTry_structure ht
      rcases httpAt_structure hh with hl | hl
      · exact ⟨hc, httpsLit ++ w2, by rw [hl, hw2, List.append_assoc]⟩
      · exact ⟨hc, httpLit ++ w2, by rw [hl, hw2, List.append_assoc]⟩
    | none =>
      rw [ht] at h2
      exact tailTry_structure h2

/-- Defining equation of the leftmost search on a cons cell. -/
theorem reFind_cons (c : Char) (rest : List Char) :
    reFind (c :: rest) =
      match matchAt (c :: rest) with
      | some d => some (d.takeWhile Char.isDigit)
      | none => reFind rest := rfl

/-- The regex never matches inside a digit-free string. -/
theorem reFind_none : ∀ {l : List Char}, (∀ c ∈ l, c.isDigit = false) → reFind l = none := by
  intro l
  induction l with
  | nil => intro h; rfl
  | cons c rest ih =>
    intro h
    rw [reFind_cons]
    cases hm : matchAt (c :: rest) with
    | some d =>
      obtain ⟨⟨c2, r2, hd, hc2⟩, w, hw⟩ := matchAt_structure hm
      have hmem : c2 ∈ c :: rest := by
        rw [hw, hd]
        exact List.mem_append_right w (List.mem_cons_self _ _)
      have h1 := h c2 hmem
      rw [hc2] at h1
      cases h1
    | none =>
      exact ih (fun c2 hc2 => h c2 (List.mem_cons_of_mem _ hc2))

/-- The host marker contains no digit. -/
theorem markerChars_digit_free : ∀ c ∈ markerChars, c.isDigit = false := by decide

/-- The host marker is non-empty. -/
theorem markerChars_ne_nil : markerChars ≠ [] := by decide

/-- A prefix of `pre ++ ms` avoiding the letter `l` cannot reach into
an `l`-headed `ms`. -/
theorem lit_prefix_le {lit pre ms : List Char} (h : ∃ t, lit ++ t = pre ++ ms)
    (hl : 'l' ∉ lit) (hm : ∃ m2, ms = 'l' :: m2) : lit.length ≤ pre.length := by
  by_contra hlen
  push_neg at hlen
  obtain ⟨t, ht⟩ := h
  have hp1 : lit <+: pre ++ ms := ⟨t, ht⟩
  have hp2 : pre <+: pre ++ ms := List.prefix_append pre ms
  have hpl : pre <+: lit := List.prefix_of_prefix_length_le hp2 hp1 (Nat.le_of_lt hlen)
  obtain ⟨k, hk⟩ := hpl
  have hk_ne : k ≠ [] := by
    intro h0
    rw [h0, List.append_nil] at hk
    rw [hk] at hlen
    exact Nat.lt_irrefl _ hlen
  rw [← hk, List.append_assoc] at ht
  have hkt : k ++ t = ms := List.append_cancel_left ht
  obtain ⟨m2, hm2⟩ := hm
  cases k with
  | nil => exact hk_ne rfl
  | cons k0 k2 =>
    rw [hm2, List.cons_append] at hkt
    apply hl
    rw [← hk]
    refine List.mem_append_right pre ?_
    rw [(List.cons.inj hkt).1]
    exact List.mem_cons_self _ _

/-- A short prefix of a string with a digit-free long prefix is itself
digit-free. -/
theorem prefix_digit_free {w A t : List Char} (hw : w <+: t) (hA : A <+: t)
    (hlen : w.length ≤ A.length) (hAf : ∀ c ∈ A, c.isDigit = false) :
    ∀ c ∈ w, c.isDigit = false :=
  fun c hc => hAf c ((List.prefix_of_prefix_length_le hw hA hlen).sublist.subset hc)

/-- The contradiction case: `digAt` cannot succeed at the very start of
a family string, whose head is in the digit-free zone. -/
theorem digAt_family_start {P D suf d : List Char}
    (hP : ∀ c ∈ P, c.isDigit = false) (hD : D ≠ []) (hDd : ∀ c ∈ D, c.isDigit = true)
    (hsuf : ∀ c, suf.head? = some c → c.isDigit = false)
    (h : digAt (P ++ markerChars ++ D ++ suf) = some d) : d = D ++ suf := by
  have hAf : ∀ c ∈ P ++ markerChars, c.isDigit = false := by
    intro c hc
    rcases List.mem_append.mp hc with h1 | h1
    · exact hP c h1
    · exact markerChars_digit_free c h1
  have hAne : P ++ markerChars ≠ [] := by
    intro h0
    exact markerChars_ne_nil (List.append_eq_nil.mp h0).2
  have hdv : ∃ c r, D ++ suf = c :: r ∧ c.isDigit = true := by
    cases D with
    | nil => exact absurd rfl hD
    | cons c D2 =>
      exact ⟨c, D2 ++ suf, List.cons_append c D2 suf, hDd c (List.mem_cons_self _ _)⟩
  obtain ⟨rfl, hdc⟩ := digAt_structure h
  have heq : ([] : List Char) ++ (P ++ markerChars ++ D ++ suf) =
      (P ++ markerChars) ++ (D ++ suf) := by
    rw [List.nil_append, List.append_assoc]
  obtain ⟨hnil, -⟩ := split_at_first_digit [] (P ++ markerChars) _ (D ++ suf) heq
    (fun c hc => absurd hc (List.not_mem_nil c)) hAf hdc hdv
  exact absurd hnil.symm hAne

/-- In a string of the shape `P ++ marker ++ D ++ suf` (digit-free `P`,
non-empty all-digit `D`, `suf` not starting with a digit), any
successful `tailTry` returns exactly `D ++ suf`. -/
theorem tailTry_family {P D suf d : List Char}
    (hP : ∀ c ∈ P, c.isDigit = false) (hD : D ≠ []) (hDd : ∀ c ∈ D, c.isDigit = true)
    (hsuf : ∀ c, suf.head? = some c → c.isDigit = false)
    (h : tailTry (P ++ markerChars ++ D ++ suf) = some d) : d = D ++ suf := by
  have hAf : ∀ c ∈ P ++ markerChars, c.isDigit = false := by
    intro c hc
    rcases List.mem_append.mp hc with h1 | h1
    · exact hP c h1
    · exact markerChars_digit_free c h1
  have htA : P ++ markerChars ++ D ++ suf = (P ++ markerChars) ++ (D ++ suf) :=
    List.append_assoc _ D suf
  have hdv : ∃ c r, D ++ suf = c :: r ∧ c.isDigit = true := by
    cases D with
    | nil => exact absurd rfl hD
    | cons c D2 =>
      exact ⟨c, D2 ++ suf, List.cons_append c D2 suf, hDd c (List.mem_cons_self _ _)⟩
  unfold tailTry at h
  cases hm : markerAt (P ++ markerChars ++ D ++ suf) with
  | some r2 =>
    rw [hm] at h
    have h2 : (match digAt r2 with
      | some d0 => some d0
      | none => digAt (P ++ markerChars ++ D ++ suf)) = some d := h
    cases hd : digAt r2 with
    | some d2 =>
      rw [hd] at h2
      obtain rfl : d2 = d := Option.some.inj h2
      obtain ⟨rfl, hdc⟩ := digAt_structure hd
      obtain ⟨w, hw, hlenw⟩ := tmplAt_structure markerTmpl _ d2 hm
      have hwlenA : w.length ≤ (P ++ markerChars).length := by
        rw [hlenw, List.length_append]
        exact le_trans (by decide : markerTmpl.length ≤ 18)
          (by rw [show markerChars.length = 18 from rfl]; exact Nat.le_add_left 18 P.length)
      have hwf : ∀ c ∈ w, c.isDigit = false :=
        prefix_digit_free ⟨d2, hw.symm⟩ (by rw [htA]; exact List.prefix_append _ _) hwlenA hAf
      have heq : w ++ d2 = (P ++ markerChars) ++ (D ++ suf) := by rw [← hw, htA]
      exact (split_at_first_digit w (P ++ markerChars) d2 (D ++ suf) heq hwf hAf hdc hdv).2
    | none =>
      rw [hd] at h2
      exact digAt_family_start hP hD hDd hsuf h2
  | none =>
    rw [hm] at h
    exact digAt_family_start hP hD hDd hsuf h

/-- In a family string, any successful full `matchAt` returns exactly
`D ++ suf` (so group 3 always captures `D`). -/
theorem matchAt_family {P D suf d : List Char}
    (hP : ∀ c ∈ P, c.isDigit = false) (hD : D ≠ []) (hDd : ∀ c ∈ D, c.isDigit = true)
    (hsuf : ∀ c, suf.head? = some c → c.isDigit = false)
    (h : matchAt (P ++ markerChars ++ D ++ suf) = some d) : d = D ++ suf := by
  unfold matchAt at h
  cases hh : httpAt (P ++ markerChars ++ D ++ suf) with
  | none =>
    rw [hh] at h
    exact tailTry_family hP hD hDd hsuf h
  | some r1 =>
    rw [hh] at h
    have h2 : (match tailTry r1 with
      | some d0 => some d0
      | none => tailTry (P ++ markerChars ++ D ++ suf)) = some d := h
    have key : ∀ lit : List Char, 'l' ∉ lit →
        P ++ markerChars ++ D ++ suf = lit ++ r1 → tailTry r1 = some d → d = D ++ suf := by
      intro lit hnl hl ht2
      have hms : markerChars ++ (D ++ suf) =
          'l' :: (['i', 'v', 'e', '.', 'b', 'i', 'l', 'i', 'b', 'i', 'l', 'i', '.', 'c', 'o',
            'm', '/'] ++ (D ++ suf)) := by
        simp [markerChars]
      have hex : ∃ t, lit ++ t = P ++ (markerChars ++ (D ++ suf)) := by
        refine ⟨r1, ?_⟩
        rw [← hl]
        simp [List.append_assoc]
      have hlen : lit.length ≤ P.length := lit_prefix_le hex hnl ⟨_, hms⟩
      have hp1 : lit <+: P ++ markerChars ++ D ++ suf := ⟨r1, hl.symm⟩
      have hp2 : P <+: P ++ markerChars ++ D ++ suf := by
        rw [List.append_assoc, List.append_assoc]
        exact List.prefix_append _ _
      have hpl : lit <+: P := List.prefix_of_prefix_length_le hp1 hp2 hlen
      obtain ⟨P2, hP2⟩ := hpl
      have hr1 : r1 = P2 ++ markerChars ++ D ++ suf := by
        have h3 : lit ++ (P2 ++ markerChars ++ D ++ suf) = lit ++ r1 := by
          rw [← hl, ← hP2]
          simp [List.append_assoc]
        exact (List.append_cancel_left h3).symm
      rw [hr1] at ht2
      exact tailTry_family (fun c hc => hP c (hP2 ▸ List.mem_append_right lit hc))
        hD hDd hsuf ht2
    cases ht : tailTry r1 with
    | some d2 =>
      rw [ht] at h2
      obtain rfl : d2 = d := Option.some.inj h2
      rcases httpAt_structure hh with hl | hl
      · exact key httpsLit (by decide) hl ht
      · exact key httpLit (by decide) hl ht
    | none =>
      rw [ht] at h2
      exact tailTry_family hP hD hDd hsuf h2

/-- At the start of the marker itself, the regex matches with an absent
`http[s]?://` group, a present marker group, and the digits right
after. -/
theorem matchAt_marker {D suf : List Char}
    (hdv : ∃ c r, D ++ suf = c :: r ∧ c.isDigit = true) :
    matchAt (markerChars ++ (D ++ suf)) = some (D ++ suf) := by
  have h1 : httpAt (markerChars ++ (D ++ suf)) = none := by
    unfold httpAt
    rw [if_neg ?_, if_neg ?_]
    · intro hp
      obtain ⟨t, ht⟩ := List.isPrefixOf_iff_prefix.mp hp
      have hh := congrArg List.head? ht
      simp [httpLit, markerChars] at hh
    · intro hp
      obtain ⟨t, ht⟩ := List.isPrefixOf_iff_prefix.mp hp
      have hh := congrArg List.head? ht
      simp [httpsLit, markerChars] at hh
  have h2 : markerAt (markerChars ++ (D ++ suf)) = some (D ++ suf) := by
    unfold markerAt
    simp [markerChars, markerTmpl, tmplAt]
  have h3 : digAt (D ++ suf) = some (D ++ suf) := by
    obtain ⟨c, r, hcr, hc⟩ := hdv
    rw [hcr]
    show (if c.isDigit = true then some (c :: r) else none) = some (c :: r)
    rw [if_pos hc]
  unfold matchAt
  rw [h1]
  show tailTry (markerChars ++ (D ++ suf)) = some (D ++ suf)
  unfold tailTry
  rw [h2]
  show (match digAt (D ++ suf) with
    | some d => some d
    | none => digAt (markerChars ++ (D ++ suf))) = some (D ++ suf)
  rw [h3]

/-- The greedy capture of `\d+` on a digit run followed by a non-digit
is exactly the run. -/
theorem takeWhile_digits_append : ∀ (D suf : List Char), (∀ c ∈ D, c.isDigit = true) →
    (∀ c, suf.head? = some c → c.isDigit = false) →
    (D ++ suf).takeWhile Char.isDigit = D := by
  intro D
  induction D with
  | nil =>
    intro suf hDd hsuf
    rw [List.nil_append]
    cases suf with
    | nil => rfl
    | cons c r =>
      rw [List.takeWhile_cons, if_neg (by rw [hsuf c rfl]; exact Bool.false_ne_true)]
  | cons a D2 ih =>
    intro suf hDd hsuf
    rw [List.cons_append, List.takeWhile_cons, if_pos (hDd a (List.mem_cons_self _ _)),
      ih suf (fun c hc => hDd c (List.mem_cons_of_mem _ hc)) hsuf]

/-- Leftmost search over a family string finds exactly the digit run
`D` that follows the host marker, provided nothing before the marker is
a digit. -/
theorem reFind_family : ∀ (P D suf : List Char), (∀ c ∈ P, c.isDigit = false) → D ≠ [] →
    (∀ c ∈ D, c.isDigit = true) → (∀ c, suf.head? = some c → c.isDigit = false) →
    reFind (P ++ markerChars ++ D ++ suf) = some D := by
  intro P
  induction P with
  | nil =>
    intro D suf hP hD hDd hsuf
    have hdv : ∃ c r, D ++ suf = c :: r ∧ c.isDigit = true := by
      cases D with
      | nil => exact absurd rfl hD
      | cons c D2 =>
        exact ⟨c, D2 ++ suf, List.cons_append c D2 suf, hDd c (List.mem_cons_self _ _)⟩
    have hm := matchAt_marker hdv
    have hshape : ([] : List Char) ++ markerChars ++ D ++ suf =
        'l' :: (['i', 'v', 'e', '.', 'b', 'i', 'l', 'i', 'b', 'i', 'l', 'i', '.', 'c', 'o',
          'm', '/'] ++ D ++ suf) := by
      simp [markerChars]
    rw [hshape, reFind_cons]
    have hm2 : matchAt ('l' :: (['i', 'v', 'e', '.', 'b', 'i', 'l', 'i', 'b', 'i', 'l', 'i',
        '.', 'c', 'o', 'm', '/'] ++ D ++ suf)) = some (D ++ suf) := by
      rw [show ('l' :: (['i', 'v', 'e', '.', 'b', 'i', 'l', 'i', 'b', 'i', 'l', 'i', '.', 'c',
        'o', 'm', '/'] ++ D ++ suf)) = markerChars ++ (D ++ suf) from by simp [markerChars]]
      exact hm
    rw [hm2]
    show some (List.takeWhile Char.isDigit (D ++ suf)) = some D
    rw [takeWhile_digits_append D suf hDd hsuf]
  | cons p P2 ih =>
    intro D suf hP hD hDd hsuf
    have hshape : (p :: P2) ++ markerChars ++ D ++ suf =
        p :: (P2 ++ markerChars ++ D ++ suf) := by simp
    rw [hshape, reFind_cons]
    cases hm : matchAt (p :: (P2 ++ markerChars ++ D ++ suf)) with
    | some d =>
      have hd : d = D ++ suf := by
        refine matchAt_family (P := p :: P2) hP hD hDd hsuf ?_
        rw [show ((p :: P2) ++ markerChars ++ D ++ suf) =
          p :: (P2 ++ markerChars ++ D ++ suf) from by simp]
        exact hm
      rw [hd]
      show some (List.takeWhile Char.isDigit (D ++ suf)) = some D
      rw [takeWhile_digits_append D suf hDd hsuf]
    | none =>
      exact ih D suf (fun c hc => hP c (List.mem_cons_of_mem _ hc)) hD hDd hsuf

/-- Characters survive `rustTrim` only if present in the original. -/
theorem rustTrim_subset {l : List Char} {c : Char} (h : c ∈ rustTrim l) : c ∈ l := by
  unfold rustTrim at h
  rw [List.mem_reverse] at h
  have h2 := (List.dropWhile_sublist Char.isWhitespace).subset h
  rw [List.mem_reverse] at h2
  exact (List.dropWhile_sublist Char.isWhitespace).subset h2

/-- `dropWhile` is the identity on a list none of whose elements
satisfy the predicate. -/
theorem dropWhile_eq_self_of {p : Char → Bool} {l : List Char}
    (h : ∀ c ∈ l, p c = false) : l.dropWhile p = l := by
  cases l with
  | nil => rfl
  | cons c r =>
    rw [List.dropWhile_cons, if_neg (by rw [h c (List.mem_cons_self _ _)]; exact Bool.false_ne_true)]

/-- `rustTrim` is the identity on a fully non-whitespace list. -/
theorem rustTrim_eq_self {l : List Char} (h : ∀ c ∈ l, c.isWhitespace = false) :
    rustTrim l = l := by
  unfold rustTrim
  rw [dropWhile_eq_self_of h, dropWhile_eq_self_of (fun c hc => h c (List.mem_reverse.mp hc)),
    List.reverse_reverse]

/-- `u32ParseChars` accepts a plain digit run below `2^32`. -/
theorem u32ParseChars_digits {l : List Char} (hne : l ≠ [])
    (hd : ∀ c ∈ l, c.isDigit = true) (hlt : digitsVal l < 2 ^ 32) :
    u32ParseChars l = some (digitsVal l) := by
  obtain ⟨c, r, rfl⟩ : ∃ c r, l = c :: r := by
    cases l with
    | nil => exact absurd rfl hne
    | cons c r => exact ⟨c, r, rfl⟩
  unfold u32ParseChars
  rw [if_neg ?_]
  · unfold u32ParseDigits
    rw [if_pos ⟨hne, List.all_eq_true.mpr hd, hlt⟩]
  · intro h0
    have hcp : c = '+' := by
      have := Option.some.inj h0
      exact this
    rw [hcp] at hd
    exact absurd (hd '+' (List.mem_cons_self _ _)) (by decide)

/-- Clause (a) of C3: a non-empty all-digit line parses to its value
(the regex matches the whole run at position zero). -/
theorem read_room_id_numeric {s : List Char} (hne : s ≠ [])
    (hd : ∀ c ∈ s, c.isDigit = true) (hlt : digitsVal s < 2 ^ 32) :
    read_room_id_attempt (String.mk s) = some (digitsVal s) := by
  unfold read_room_id_attempt
  have hdata : (String.mk s).data = s := rfl
  rw [hdata, rustTrim_eq_self (fun c hc => digit_not_ws (hd c hc))]
  obtain ⟨c, rest, rfl⟩ : ∃ c rest, s = c :: rest := by
    cases s with
    | nil => exact absurd rfl hne
    | cons c rest => exact ⟨c, rest, rfl⟩
  have hc := hd c (List.mem_cons_self _ _)
  have hm : matchAt (c :: rest) = some (c :: rest) := by
    have hh : httpAt (c :: rest) = none := by
      unfold httpAt
      rw [if_neg ?_, if_neg ?_]
      · intro hp
        obtain ⟨t, ht⟩ := List.isPrefixOf_iff_prefix.mp hp
        have hhd := congrArg List.head? ht
        simp [httpLit] at hhd
        rw [← hhd] at hc
        exact absurd hc (by decide)
      · intro hp
        obtain ⟨t, ht⟩ := List.isPrefixOf_iff_prefix.mp hp
        have hhd := congrArg List.head? ht
        simp [httpsLit] at hhd
        rw [← hhd] at hc
        exact absurd hc (by decide)
    have hmk : markerAt (c :: rest) = none := by
      unfold markerAt markerTmpl
      show (if c = 'l' then tmplAt _ rest else none) = none
      rw [if_neg (fun h0 => absurd (h0 ▸ hc) (by decide))]
    unfold matchAt
    rw [hh]
    show tailTry (c :: rest) = some (c :: rest)
    unfold tailTry
    rw [hmk]
    show (if c.isDigit = true then some (c :: rest) else none) = some (c :: rest)
    rw [if_pos hc]
  rw [reFind_cons, hm]
  show (some ((c :: rest).takeWhile Char.isDigit)).bind u32ParseChars = some (digitsVal (c :: rest))
  rw [List.takeWhile_eq_self_iff.mpr hd, Option.some_bind]
  exact u32ParseChars_digits hne hd hlt

/-- Clause (b) of C3, amended: a line whose trimmed content is a
digit-free prefix, the host marker, a digit run `D` and a suffix not
starting with a digit parses to the value of `D`. -/
theorem read_room_id_marker {line : String} {P D suf : List Char}
    (ht : rustTrim line.data = P ++ markerChars ++ D ++ suf)
    (hP : ∀ c ∈ P, c.isDigit = false) (hD : D ≠ []) (hDd : ∀ c ∈ D, c.isDigit = true)
    (hsuf : ∀ c, suf.head? = some c → c.isDigit = false) (hlt : digitsVal D < 2 ^ 32) :
    read_room_id_attempt line = some (digitsVal D) := by
  unfold read_room_id_attempt
  rw [ht, reFind_family P D suf hP hD hDd hsuf, Option.some_bind]
  exact u32ParseChars_digits hD hDd hlt

/-- Clause (c) of C3: an ASCII line with no digit at all is rejected
(the regex finds no match anywhere). -/
theorem read_room_id_reject {line : String}
    (h : ∀ c ∈ line.data, c.isDigit = false ∧ c.toNat ≤ 127) :
    read_room_id_attempt line = none := by
  unfold read_room_id_attempt
  rw [reFind_none (fun c hc => (h c (rustTrim_subset hc)).1)]
  rfl

/-- C3 as amended: room-id parsing maps every non-empty all-digit
string with value `N` in `u32` range to `N`; maps every string whose
trimmed content is the host marker followed by a digit run `D` (in
`u32` range), with no digit anywhere before the marker and no digit
right after the run, to `D`; and rejects every ASCII string containing
no digit at all. -/
theorem c3_room_id_parsing :
    (∀ s : List Char, s ≠ [] → (∀ c ∈ s, c.isDigit = true) → 0 < digitsVal s →
      digitsVal s < 2 ^ 32 → read_room_id_attempt (String.mk s) = some (digitsVal s))
    ∧ (∀ (line : String) (P D suf : List Char),
        rustTrim line.data = P ++ markerChars ++ D ++ suf →
        (∀ c ∈ P, c.isDigit = false) → D ≠ [] → (∀ c ∈ D, c.isDigit = true) →
        (∀ c, suf.head? = some c → c.isDigit = false) → digitsVal D < 2 ^ 32 →
        read_room_id_attempt line = some (digitsVal D))
    ∧ (∀ line : String, (∀ c ∈ line.data, c.isDigit = false ∧ c.toNat ≤ 127) →
        read_room_id_attempt line = none) :=
  ⟨fun s hne hd _ hlt => read_room_id_numeric hne hd hlt,
   fun _ P D suf ht hP hD hDd hsuf hlt => read_room_id_marker ht hP hD hDd hsuf hlt,
   fun _ h => read_room_id_reject h⟩

/-- C3 counterexample: the claim as stated maps any string containing
the marker followed by digits `D` to `D`; but on
`"1live.bilibili.com/23"` the regex's leftmost search finds the `1`
before the marker, so the room id is 1, not 23. -/
theorem c3_room_id_counterexample :
    read_room_id_attempt "1live.bilibili.com/23" = some 1
    ∧ (some 1 : Option Nat) ≠ some 23 :=
  ⟨by decide, by decide⟩

/-- C3 witness: the amended clauses at the concrete inputs `"123"`
(numeric) and `"live.bilibili.com/42"` (marker) and `"abc"`
(rejected). -/
theorem c3_room_id_parsing_witness :
    read_room_id_attempt (String.mk ['1', '2', '3']) = some (digitsVal ['1', '2', '3'])
    ∧ read_room_id_attempt "live.bilibili.com/42" = some (digitsVal ['4', '2'])
    ∧ read_room_id_attempt "abc" = none :=
  ⟨c3_room_id_parsing.1 ['1', '2', '3'] (by decide) (by decide) (by decide) (by decide),
   c3_room_id_parsing.2.1 "live.bilibili.com/42" [] ['4', '2'] [] (by decide) (by decide)
     (by decide) (by decide) (fun c hc => by cases hc) (by decide),
   c3_room_id_parsing.2.2 "abc" (by decide)⟩
